import Mathlib

/-!
Verification of the documentation scaffolding tool shipped in this
repository (`scripts/doc-init-modular.py` and its `doc_init_modules`
package: `config_loader.py`, `validators.py`, `generators.py`,
`file_handler.py`, `structure_builder.py`, `preview.py`, `constants.py`).

The Python code is shallowly embedded:

* dictionaries parsed from YAML become Lean structures; a key that may be
  absent becomes an `Option` field (`position: 0` is `some 0`, an absent
  key is `none`);
* Python strings are Lean `String`s; the string builtins used by the code
  (`lower`, `replace`, `strip`) are re-implemented over `String.data` so
  that they evaluate inside the kernel;
* the filesystem is a map from paths (lists of components) to file
  contents; `FileHandler.write_file` becomes a pure update on that map;
* `build_structure` is split into the sequence of `write_file` calls it
  performs (a write trace, a pure function of the configuration, since the
  code never lets a write's result influence later paths or contents) and
  the application of that trace to a filesystem;
* a `sorted(..., key=lambda x: x['position'])` call that would raise
  `KeyError` because some element lacks the key is modelled as `none`.
-/

/-! ## Python string builtins, re-implemented so the kernel can evaluate them -/

/-- Embedding of Python `str.lower()` (ASCII-faithful; the configs at issue
are ASCII). -/
def pyLower (s : String) : String := String.mk (s.data.map Char.toLower)

/-- Character-level prefix test used by `replaceAll` below. -/
def charsStartWith : List Char → List Char → Bool
  | _, [] => true
  | [], _ :: _ => false
  | c :: cs, p :: ps => c = p && charsStartWith cs ps

/-- Fuel-indexed worker for `replaceAll`.  Each step consumes at least one
character of the input, so fuel equal to the input length always
suffices. -/
def replaceAllAux : Nat → List Char → List Char → List Char → List Char
  | 0, s, _, _ => s
  | Nat.succ n, s, pat, rep =>
    match s with
    | [] => []
    | c :: rest =>
      if !pat.isEmpty && charsStartWith (c :: rest) pat then
        rep ++ replaceAllAux n ((c :: rest).drop pat.length) pat rep
      else
        c :: replaceAllAux n rest pat rep

/-- Left-to-right, non-overlapping replacement of every occurrence of
`pat` by `rep`: the semantics of Python `str.replace` for a non-empty
pattern. -/
def replaceAll (s pat rep : List Char) : List Char :=
  replaceAllAux s.length s pat rep

/-- Embedding of Python `str.replace(old, new)`. -/
def pyReplace (s old new : String) : String :=
  String.mk (replaceAll s.data old.data new.data)

/-- Embedding of Python `str.strip()`: drop leading and trailing
whitespace. -/
def pyStrip (s : String) : String :=
  String.mk (((s.data.dropWhile Char.isWhitespace).reverse.dropWhile
    Char.isWhitespace).reverse)

/-- Embedding of `FileHandler.sanitize_filename` (file_handler.py):
`title.lower().replace(' ', '-').replace('&', 'and')`.  The same formula is
inlined as `default_id` in `FrontMatterGenerator.generate`
(generators.py). -/
def sanitizeFilename (title : String) : String :=
  pyReplace (pyReplace (pyLower title) " " "-") "&" "and"

/-- Embedding of the Python format `f"{index:02d}"` for a non-negative
index. -/
def numFmt (index : Nat) : String :=
  if index < 10 then "0" ++ toString index else toString index

/-- Embedding of `FileHandler.generate_numbered_name`:
`f"{index:02d}-{sanitized}"` plus the optional extension. -/
def generateNumberedName (index : Nat) (title : String) (extension : String) : String :=
  numFmt index ++ "-" ++ sanitizeFilename title ++ extension

/-! ## Data model: the YAML configuration document -/

/-- A file entry of the YAML configuration.  `position` is `some v` when
the dictionary has the key `position` with integer value `v`, `none` when
the key is absent; likewise the other optional keys. -/
structure FileNode where
  title : String
  id : Option String
  description : Option String
  position : Option Int
  createAssets : Bool
  initialContent : Option String
deriving DecidableEq

/-- A section or subsection of the YAML configuration.  A missing `title`
or `label` key is represented by the empty string (the validator treats
the two the same way, via Python falsiness). -/
inductive SectionNode : Type where
  | mk (title label : String) (position : Option Int) (createAssets : Bool)
       (collapsible collapsed : Option Bool)
       (files : List FileNode) (subsections : List SectionNode)

def SectionNode.title : SectionNode → String
  | .mk t _ _ _ _ _ _ _ => t

def SectionNode.label : SectionNode → String
  | .mk _ l _ _ _ _ _ _ => l

def SectionNode.position : SectionNode → Option Int
  | .mk _ _ p _ _ _ _ _ => p

def SectionNode.createAssets : SectionNode → Bool
  | .mk _ _ _ ca _ _ _ _ => ca

def SectionNode.collapsible : SectionNode → Option Bool
  | .mk _ _ _ _ cb _ _ _ => cb

def SectionNode.collapsed : SectionNode → Option Bool
  | .mk _ _ _ _ _ cc _ _ => cc

def SectionNode.files : SectionNode → List FileNode
  | .mk _ _ _ _ _ _ fs _ => fs

def SectionNode.subsections : SectionNode → List SectionNode
  | .mk _ _ _ _ _ _ _ ss => ss

/-- The root configuration document. -/
structure Config where
  section_name : String
  sections : List SectionNode
  customImportsFile : Option String

/-! ## Content generators (generators.py, constants.py) -/

/-- Embedding of `FrontMatterGenerator.generate` (generators.py lines
13-31): the fenced metadata block, joined with newlines. -/
def frontMatterGenerate (item : FileNode) (position : Int) : String :=
  let sidebarPosition : Int := item.position.getD position
  let defaultId : String := sanitizeFilename item.title
  String.intercalate "\n"
    ["---",
     "id: " ++ item.id.getD defaultId,
     "title: " ++ item.title,
     "description: " ++ item.description.getD item.title,
     "sidebar_position: " ++ toString sidebarPosition,
     "---"]

/-- The in-memory shape of a section `_category_.json`
(constants.py `SECTION_CATEGORY_TEMPLATE` has keys `label`, `position`,
`className`, `collapsible`). -/
structure SectionCategory where
  label : String
  position : Int
  className : String
  collapsible : Bool
deriving DecidableEq

/-- The in-memory shape of a subsection `_category_.json`
(constants.py `SUBSECTION_CATEGORY_TEMPLATE` has keys `label`, `position`,
`collapsible`, `collapsed`). -/
structure SubsectionCategory where
  label : String
  position : Int
  collapsible : Bool
  collapsed : Bool
deriving DecidableEq

/-- Embedding of `SECTION_CATEGORY_TEMPLATE` from constants.py. -/
def SECTION_CATEGORY_TEMPLATE : SectionCategory :=
  { label := "", position := 1, className := "sidebar-header", collapsible := false }

/-- Embedding of `SUBSECTION_CATEGORY_TEMPLATE` from constants.py. -/
def SUBSECTION_CATEGORY_TEMPLATE : SubsectionCategory :=
  { label := "", position := 1, collapsible := true, collapsed := true }

/-- Embedding of `CategoryGenerator.generate_section_category`
(generators.py lines 37-44): copy the template, then set `label` and
`position`. -/
def generateSectionCategory (s : SectionNode) (position : Int) : SectionCategory :=
  { SECTION_CATEGORY_TEMPLATE with
      label := s.label
      position := s.position.getD position }

/-- Embedding of `CategoryGenerator.generate_subsection_category`
(generators.py lines 46-58): copy the template, set `label` and
`position`, then set `collapsible` and `collapsed` with default `True`
each. -/
def generateSubsectionCategory (s : SectionNode) (position : Int) : SubsectionCategory :=
  { SUBSECTION_CATEGORY_TEMPLATE with
      label := s.label
      position := s.position.getD position
      collapsible := s.collapsible.getD true
      collapsed := s.collapsed.getD true }

/-- JSON string escaping as performed by `json.dumps` for the characters
that can occur here (backslash, quote, and the common control
characters). -/
def jsonEscape (s : String) : String :=
  String.mk (s.data.foldr
    (fun c acc =>
      if c = '\\' then '\\' :: '\\' :: acc
      else if c = '"' then '\\' :: '"' :: acc
      else if c = '\n' then '\\' :: 'n' :: acc
      else if c = '\t' then '\\' :: 't' :: acc
      else if c = '\r' then '\\' :: 'r' :: acc
      else c :: acc) [])

def jsonStr (s : String) : String := "\"" ++ jsonEscape s ++ "\""

def jsonBool (b : Bool) : String := if b then "true" else "false"

/-- Rendering of a section category as `json.dumps(category, indent=2)`
produces it, keys in template insertion order. -/
def renderSectionCategory (c : SectionCategory) : String :=
  "\x7b\n  \"label\": " ++ jsonStr c.label ++
  ",\n  \"position\": " ++ toString c.position ++
  ",\n  \"className\": " ++ jsonStr c.className ++
  ",\n  \"collapsible\": " ++ jsonBool c.collapsible ++ "\n\x7d"

/-- Rendering of a subsection category as `json.dumps(category, indent=2)`
produces it, keys in template insertion order. -/
def renderSubsectionCategory (c : SubsectionCategory) : String :=
  "\x7b\n  \"label\": " ++ jsonStr c.label ++
  ",\n  \"position\": " ++ toString c.position ++
  ",\n  \"collapsible\": " ++ jsonBool c.collapsible ++
  ",\n  \"collapsed\": " ++ jsonBool c.collapsed ++ "\n\x7d"

/-- Embedding of `ContentGenerator.generate_mdx_content` (generators.py
lines 67-90).  `if custom_imports:` is Python truthiness on a string,
i.e. non-emptiness; `if 'initial_content' in item:` is key presence. -/
def generateMdxContent (importsTemplate : String) (item : FileNode)
    (position : Int) (customImports : String) : String :=
  let frontMatter := frontMatterGenerate item position
  let allImports :=
    if customImports ≠ "" then importsTemplate ++ "\n" ++ customImports
    else importsTemplate
  let contentLines := [frontMatter, "", allImports, "", "# " ++ item.title]
  let contentLines :=
    match item.initialContent with
    | some ic => contentLines ++ ["", ic]
    | none => contentLines
  String.intercalate "\n" contentLines

/-! ## Configuration validator (validators.py) -/

/-- One accumulated validation diagnostic.  Each constructor corresponds
to one `self.errors.append(...)` site of `ConfigValidator` and carries the
data interpolated into the message there. -/
inductive VErr where
  | missingSectionName
  | noSections
  | missingTitle (ctx : String)
  | missingLabel (ctx : String)
  | mixedPositions (ctx : String)
  | positionNotPositive (ctx typ title : String)
  | duplicatePositions (ctx : String)
  | positionRange (ctx : String) (n : Nat) (missing extra : List Int)
deriving DecidableEq

/-- An element of the `all_items` list built inside
`ConfigValidator._validate_positions`: the item type tag, the declared
position (if any) and the item title. -/
structure PItem where
  typ : String
  position : Option Int
  title : String
deriving DecidableEq

/-- The `all_items` list of `_validate_positions` (validators.py lines
64-67): files first, then subsections, each tagged with its type. -/
def pitems (files : List FileNode) (subs : List SectionNode) : List PItem :=
  files.map (fun f => PItem.mk "file" f.position f.title) ++
  subs.map (fun s => PItem.mk "subsection" s.position s.title)

/-- The per-item errors of the loop at validators.py lines 85-99: one
error for every declared position that is not a positive integer. -/
def posErrsOf (ctx : String) (items : List PItem) : List VErr :=
  items.filterMap (fun it =>
    match it.position with
    | none => none
    | some p =>
      if p < 1 then some (VErr.positionNotPositive ctx it.typ it.title) else none)

/-- The `positions` list collected by the same loop: every declared
position that passed the positivity check, in item order. -/
def collectedPositions (items : List PItem) : List Int :=
  items.filterMap (fun it =>
    match it.position with
    | none => none
    | some p => if p < 1 then none else some p)

/-- The duplicate check at validators.py lines 101-103:
`len(positions) != len(set(positions))`. -/
def dupErrsOf (ctx : String) (positions : List Int) : List VErr :=
  if positions.dedup.length ≠ positions.length then
    [VErr.duplicatePositions ctx]
  else []

/-- The `{1, ..., N}` set the positions are compared against (as a sorted
list). -/
def expectedPositions (n : Nat) : List Int :=
  (List.range n).map (fun k : Nat => (k : Int) + 1)

/-- The range check at validators.py lines 105-120: compare the set of
collected positions with `{1..N}`; on mismatch, report the sorted missing
and extra values. -/
def rangeErrsOf (ctx : String) (n : Nat) (positions : List Int) : List VErr :=
  if positions.isEmpty then []
  else if (expectedPositions n).all (fun p => positions.contains p) &&
          positions.all (fun p => (expectedPositions n).contains p) then []
  else
    [VErr.positionRange ctx n
      ((expectedPositions n).filter (fun p => !(positions.contains p)))
      (List.insertionSort (fun a b => a ≤ b)
        ((positions.filter (fun p => !((expectedPositions n).contains p))).dedup))]

/-- Embedding of `ConfigValidator._validate_positions` (validators.py
lines 59-120). -/
def validatePositions (files : List FileNode) (subs : List SectionNode)
    (ctx : String) : List VErr :=
  let allItems := pitems files subs
  let itemsWithPosition := allItems.filter (fun it => it.position.isSome)
  if itemsWithPosition.isEmpty then []
  else if itemsWithPosition.length < allItems.length then
    [VErr.mixedPositions ctx]
  else
    posErrsOf ctx allItems ++
    dupErrsOf ctx (collectedPositions allItems) ++
    rangeErrsOf ctx allItems.length (collectedPositions allItems)

mutual

/-- Embedding of `ConfigValidator._validate_section` (validators.py lines
41-57).  A missing required key is represented by the empty string, which
is also how Python falsiness treats an empty value; the context string for
the position check interpolates the title exactly as the source does. -/
def validateSection : SectionNode → Nat → String → List VErr
  | .mk title label _ _ _ _ files subs, index, context =>
    let sectionContext := context ++ " " ++ toString index
    (if title = "" then [VErr.missingTitle sectionContext] else []) ++
    (if label = "" then [VErr.missingLabel sectionContext] else []) ++
    validatePositions files subs (sectionContext ++ " '" ++ title ++ "'") ++
    validateSubs subs 1 (sectionContext ++ " -> Subsection")

/-- The `enumerate(subsections)` recursion at validators.py lines 55-57. -/
def validateSubs : List SectionNode → Nat → String → List VErr
  | [], _, _ => []
  | s :: rest, i, ctx => validateSection s i ctx ++ validateSubs rest (i + 1) ctx

end

/-- Embedding of `ConfigValidator.validate` (validators.py lines 15-39):
the accumulated error list; `validate` returns `True` exactly when it is
empty. -/
def validateConfig (cfg : Config) : List VErr :=
  (if cfg.section_name = "" then [VErr.missingSectionName] else []) ++
  (if cfg.sections.isEmpty then [VErr.noSections] else []) ++
  validateSubs cfg.sections 1 "Section"

mutual

/-- All containers of a section subtree: the node itself and,
recursively, every nested subsection. -/
def containersOf : SectionNode → List SectionNode
  | .mk t l p ca cb cc files subs =>
    SectionNode.mk t l p ca cb cc files subs :: containersOfList subs

/-- All containers appearing in a list of section subtrees. -/
def containersOfList : List SectionNode → List SectionNode
  | [] => []
  | s :: rest => containersOf s ++ containersOfList rest

end

/-- All containers (sections and arbitrarily nested subsections) of a
configuration. -/
def configContainers (cfg : Config) : List SectionNode :=
  containersOfList cfg.sections

/-- The declared positions of a container's children, in the `all_items`
order (files first, then subsections). -/
def declaredPositions (files : List FileNode) (subs : List SectionNode) : List Int :=
  (pitems files subs).filterMap (fun it => it.position)

/-- Every child of the container declares a `position`. -/
def allDeclared (files : List FileNode) (subs : List SectionNode) : Prop :=
  (∀ f ∈ files, f.position.isSome) ∧ (∀ s ∈ subs, s.position.isSome)

instance (files : List FileNode) (subs : List SectionNode) :
    Decidable (allDeclared files subs) := by
  unfold allDeclared; infer_instance

/-! ## Structure builder (structure_builder.py, file_handler.py) -/

/-- A child of a container, as it appears in the builder's `all_items`
list: a file or a subsection. -/
abbrev Item := Sum FileNode SectionNode

def itemPosition : Item → Option Int
  | .inl f => f.position
  | .inr s => s.position

/-- Python truthiness of `item.get('position')` (structure_builder.py line
88): an absent key and the value `0` are both falsy. -/
def truthyPos : Option Int → Bool
  | some v => v ≠ 0
  | none => false

/-- The sort key `x[1]['position']` (structure_builder.py line 89); it is
only consulted on items whose `position` key is present. -/
def posKey (it : Item) : Int := (itemPosition it).getD 0

/-- The merged `all_items` list of `_build_content` (structure_builder.py
lines 83-85): files first, then subsections, in document order. -/
def mergeItems (files : List FileNode) (subs : List SectionNode) : List Item :=
  files.map Sum.inl ++ subs.map Sum.inr

/-- The conditional sort of `_build_content` (structure_builder.py lines
87-89): sort (stably) by declared position when any item has a truthy
`position`; `none` models the `KeyError` raised by the sort key when some
item lacks the `position` key. -/
def orderedItems (its : List Item) : Option (List Item) :=
  if its.any (fun it => truthyPos (itemPosition it)) then
    if its.all (fun it => (itemPosition it).isSome) then
      some (List.insertionSort (fun a b => posKey a ≤ posKey b) its)
    else none
  else some its

/-- The `_get_sorted_items` helper shared verbatim by
structure_builder.py (lines 121-125) and preview.py (lines 159-163): sort
by `x['position']` when any item has the key; `none` models the `KeyError`
raised when some item then lacks it. -/
def getSortedItems (items : List SectionNode) : Option (List SectionNode) :=
  if items.any (fun s => s.position.isSome) then
    if items.all (fun s => s.position.isSome) then
      some (List.insertionSort
        (fun a b => a.position.getD 0 ≤ b.position.getD 0) items)
    else none
  else some items

/-- Which call site of `FileHandler.write_file` produced a write: the
`_category_.json` writes, the `.mdx` content writes, or the
`__placeholder__` writes. -/
inductive WriteKind where
  | category
  | mdx
  | placeholder
deriving DecidableEq

/-- One `FileHandler.write_file(path, content, overwrite)` call, tagged
with its call site. -/
structure WriteOp where
  path : List String
  content : String
  overwrite : Bool
  kind : WriteKind
deriving DecidableEq

/-- Embedding of `PLACEHOLDER_FILENAME` from constants.py. -/
def PLACEHOLDER_FILENAME : String := "__placeholder__"

/-- Embedding of `PLACEHOLDER_CONTENT` from constants.py. -/
def PLACEHOLDER_CONTENT : String :=
  "# Placeholder file for version control\n# This file ensures the assets directory is tracked by git\n# You can delete this file once you add actual assets"

/-- Embedding of `FileHandler.create_placeholder` as the write it
performs (file_handler.py lines 36-40). -/
def placeholderOps (directory : List String) : List WriteOp :=
  [⟨directory ++ [PLACEHOLDER_FILENAME], PLACEHOLDER_CONTENT, false, .placeholder⟩]

/-- Embedding of `StructureBuilder._build_file` (structure_builder.py
lines 98-113) as the writes it performs: the non-overwriting `.mdx` write
and, when `create_assets` is set, the per-file placeholder. -/
def buildFileOps (importsTemplate : String) (f : FileNode) (index : Nat)
    (parentPath : List String) (customImports : String) : List WriteOp :=
  let filename := generateNumberedName index f.title ".mdx"
  let content := generateMdxContent importsTemplate f (index : Int) customImports
  let mdxOp : WriteOp := ⟨parentPath ++ [filename], content, false, .mdx⟩
  if f.createAssets then
    let fileBasename := pyReplace filename ".mdx" ""
    mdxOp :: placeholderOps (parentPath ++ ["assets", fileBasename])
  else [mdxOp]

/-- The `_category_.json` write of `_build_subsection`
(structure_builder.py lines 64-67). -/
def subsectionCategoryOp (s : SectionNode) (index : Nat)
    (dir : List String) : WriteOp :=
  ⟨dir ++ ["_category_.json"],
   renderSubsectionCategory (generateSubsectionCategory s (index : Int)),
   true, .category⟩

/-- The `_category_.json` write of `_build_section`
(structure_builder.py lines 44-47). -/
def sectionCategoryOp (s : SectionNode) (index : Nat)
    (dir : List String) : WriteOp :=
  ⟨dir ++ ["_category_.json"],
   renderSectionCategory (generateSectionCategory s (index : Int)),
   true, .category⟩

mutual

/-- Embedding of `StructureBuilder._build_subsection` (structure_builder.py
lines 56-74) as the writes it performs, in order: the category descriptor,
the content writes, then the container-level assets placeholder.
Directory creation has no effect on the file map and is dropped.  The
`fuel` argument only bounds the recursion depth structurally; every call
decrements it, and the top-level entry point supplies more fuel than any
reachable recursion consumes. -/
def buildSubsectionOps : Nat → SectionNode → Nat → List String → String →
    String → Option (List WriteOp)
  | 0, _, _, _, _, _ => none
  | Nat.succ fuel, s, index, parentPath, importsTemplate, customImports =>
    let dir := parentPath ++ [generateNumberedName index s.title ""]
    match buildContentOps fuel s.files s.subsections dir importsTemplate
      customImports with
    | none => none
    | some contentOps =>
      some (subsectionCategoryOp s index dir :: contentOps ++
        (if s.createAssets then placeholderOps (dir ++ ["assets"]) else []))

/-- Embedding of `StructureBuilder._build_content` (structure_builder.py
lines 76-96): merge files and subsections, optionally sort by position,
then process the items with a single 1-based counter. -/
def buildContentOps : Nat → List FileNode → List SectionNode →
    List String → String → String → Option (List WriteOp)
  | 0, _, _, _, _, _ => none
  | Nat.succ fuel, files, subs, containerPath, importsTemplate, customImports =>
    match orderedItems (mergeItems files subs) with
    | none => none
    | some sorted =>
      buildItemsOps fuel sorted 1 containerPath importsTemplate customImports

/-- The `enumerate(all_items, 1)` loop of `_build_content`
(structure_builder.py lines 92-96). -/
def buildItemsOps : Nat → List Item → Nat → List String → String →
    String → Option (List WriteOp)
  | 0, _, _, _, _, _ => none
  | Nat.succ _, [], _, _, _, _ => some []
  | Nat.succ fuel, it :: rest, i, path, importsTemplate, customImports =>
    match it with
    | .inl f =>
      match buildItemsOps fuel rest (i + 1) path importsTemplate customImports with
      | none => none
      | some restOps =>
        some (buildFileOps importsTemplate f i path customImports ++ restOps)
    | .inr s =>
      match buildSubsectionOps fuel s i path importsTemplate customImports with
      | none => none
      | some subOps =>
        match buildItemsOps fuel rest (i + 1) path importsTemplate customImports with
        | none => none
        | some restOps => some (subOps ++ restOps)

end

/-- Embedding of `StructureBuilder._build_section` (structure_builder.py
lines 36-54): identical to `_build_subsection` except that the category
descriptor uses the section template. -/
def buildSectionOps (fuel : Nat) (s : SectionNode) (index : Nat)
    (parentPath : List String) (importsTemplate customImports : String) :
    Option (List WriteOp) :=
  let dir := parentPath ++ [generateNumberedName index s.title ""]
  match buildContentOps fuel s.files s.subsections dir importsTemplate
    customImports with
  | none => none
  | some contentOps =>
    some (sectionCategoryOp s index dir :: contentOps ++
      (if s.createAssets then placeholderOps (dir ++ ["assets"]) else []))

/-- The `enumerate(sections, 1)` loop of `build_structure`
(structure_builder.py lines 31-32). -/
def buildSectionsOps (fuel : Nat) : List SectionNode → Nat → List String →
    String → String → Option (List WriteOp)
  | [], _, _, _, _ => some []
  | s :: rest, i, path, importsTemplate, customImports =>
    match buildSectionOps fuel s i path importsTemplate customImports with
    | none => none
    | some ops =>
      match buildSectionsOps fuel rest (i + 1) path importsTemplate
        customImports with
      | none => none
      | some restOps => some (ops ++ restOps)

mutual

/-- A fuel bound dominating the recursion depth of the build of one
section subtree. -/
def nodeFuel : SectionNode → Nat
  | .mk _ _ _ _ _ _ files subs => 3 + files.length + listFuel subs

/-- A fuel bound dominating the recursion depth of the build of a list of
section subtrees. -/
def listFuel : List SectionNode → Nat
  | [] => 1
  | s :: rest => 1 + nodeFuel s + listFuel rest

end

/-- Embedding of `StructureBuilder.build_structure` (structure_builder.py
lines 19-34) as the sequence of `write_file` calls it performs.  The
result is `none` when the run raises: either the `KeyError` of
`_get_sorted_items` on a mixed top-level `sections` list, the analogous
`KeyError` of an inner sort, or (unreachably, the bound dominating the
recursion depth) fuel exhaustion. -/
def buildStructureOps (cfg : Config) (basePath : String)
    (importsTemplate customImports : String) : Option (List WriteOp) :=
  let sectionPath := [basePath, cfg.section_name]
  match getSortedItems cfg.sections with
  | none => none
  | some sections =>
    buildSectionsOps (listFuel sections) sections 1 sectionPath
      importsTemplate customImports

/-! ## The filesystem model and `FileHandler.write_file` -/

/-- A filesystem: a map from file paths (component lists) to contents.
Directories are not modelled; `create_directory` is a no-op on it. -/
def FS := List String → Option String

/-- The empty filesystem. -/
def fsEmpty : FS := fun _ => none

/-- Embedding of `FileHandler.write_file` (file_handler.py lines 20-34):
skip when the path exists and `overwrite` is false, else write; the
boolean result records whether the file was written. -/
def writeFile (fs : FS) (path : List String) (content : String)
    (overwrite : Bool) : FS × Bool :=
  if (fs path).isSome && !overwrite then (fs, false)
  else (fun q => if q = path then some content else fs q, true)

/-- Apply one tagged write to the filesystem. -/
def applyOp (fs : FS) (op : WriteOp) : FS :=
  (writeFile fs op.path op.content op.overwrite).1

/-- Apply a write trace in order. -/
def applyTrace : FS → List WriteOp → FS
  | fs, [] => fs
  | fs, op :: rest => applyTrace (applyOp fs op) rest

/-- Apply a write trace, also returning, per write, whether
`write_file` wrote (true) or skipped (false). -/
def applyTraceWr : FS → List WriteOp → FS × List Bool
  | fs, [] => (fs, [])
  | fs, op :: rest =>
    let step := writeFile fs op.path op.content op.overwrite
    let tail := applyTraceWr step.1 rest
    (tail.1, step.2 :: tail.2)

/-- Embedding of a full `build_structure` run against a filesystem: the
write trace applied in order (`none` when the run raises). -/
def buildStructure (cfg : Config) (basePath : String)
    (importsTemplate customImports : String) (fs : FS) : Option FS :=
  (buildStructureOps cfg basePath importsTemplate customImports).map
    (applyTrace fs)

/-! ## Loader, confirmation prompt and orchestrator -/

/-- Embedding of `ConfigLoader.load` (config_loader.py lines 16-26): the
argument is `some parsed` when the YAML file exists and parses, `none`
when the file is absent, in which case load fails with a file-not-found
error carrying the offending path. -/
def configLoaderLoad (file : Option Config) (path : String) : Except String Config :=
  match file with
  | none => Except.error ("Configuration file not found: " ++ path)
  | some cfg => Except.ok cfg

/-- Embedding of `ConfigLoader.load_imports_template` (config_loader.py
lines 28-41): the argument is the raw file contents when the file exists,
`none` when absent.  Returns the trimmed contents, or the empty string
with a warning (the boolean records that the warning was printed). -/
def loadImportsTemplate (file : Option String) : String × Bool :=
  match file with
  | some contents => (pyStrip contents, false)
  | none => ("", true)

/-- Embedding of the confirmation logic of
`StructurePreview.preview_and_confirm` (preview.py lines 44-53): an
interactive answer is stripped, lowercased and compared against
`('y', 'yes')`; on EOF (answer `none`) the `DOC_INIT_AUTO_CONFIRM`
environment variable must equal `"yes"`. -/
def previewConfirm (answer : Option String) (envAuto : Option String) : Bool :=
  match answer with
  | some response =>
    let r := pyLower (pyStrip response)
    r = "y" || r = "yes"
  | none => envAuto = some "yes"

/-- Embedding of `ModularDocInitializer.run` (doc-init-modular.py lines
47-87) as exit code and resulting filesystem: a missing configuration
file, a validation failure, or an exception during the run exits 1; a
declined confirmation prompt prints a cancellation message and returns
normally (exit 0); otherwise the structure is built.  The preview walk
sorts the top-level sections exactly as the builder does, so its
`KeyError` also aborts the run before the prompt. -/
def runMain (configFile : Option Config) (configPath : String)
    (importsFile : Option String) (answer envAuto : Option String)
    (basePath customImports : String) (fs : FS) : Int × FS :=
  match configLoaderLoad configFile configPath with
  | Except.error _ => (1, fs)
  | Except.ok cfg =>
    let importsTemplate := (loadImportsTemplate importsFile).1
    if validateConfig cfg ≠ [] then (1, fs)
    else
      match getSortedItems cfg.sections with
      | none => (1, fs)
      | some _ =>
        if !(previewConfirm answer envAuto) then (0, fs)
        else
          match buildStructure cfg basePath importsTemplate customImports fs with
          | none => (1, fs)
          | some fs2 => (0, fs2)

/-! ## Concrete configurations used by the witnesses -/

/-- The simultaneous character substitution performed by
`sanitize_filename`: each space becomes a hyphen and each ampersand
becomes `and`. -/
def slugSub (a : Char) : List Char :=
  if a = ' ' then ['-'] else if a = '&' then ['a', 'n', 'd'] else [a]

/-- A subsection with an explicit position and an explicit
`collapsible: false`, used by the C5 witness. -/
def sW5 : SectionNode :=
  SectionNode.mk "Guides" "Guides" (some 2) false (some false) none [] []

def opsW5 : List WriteOp := (buildSubsectionOps 3 sW5 1 ["docs"] "" "").getD []

/-- A configuration whose top-level sections mix declared and undeclared
positions while every section is internally valid (C9). -/
def cfg9 : Config :=
  { section_name := "guide"
    sections :=
      [SectionNode.mk "Alpha" "Alpha" (some 1) false none none [] [],
       SectionNode.mk "Beta" "Beta" none false none none [] []]
    customImportsFile := none }

/-- A small valid configuration: one section with one file, no declared
positions (used by the C2 and C8 witnesses, mirroring the spec's `guide`
scenario). -/
def cfgW : Config :=
  { section_name := "guide"
    sections :=
      [SectionNode.mk "Intro" "Intro" none false none none
        [{ title := "Welcome", id := none, description := none,
           position := none, createAssets := false, initialContent := none }] []]
    customImportsFile := none }

def opsW : List WriteOp := (buildStructureOps cfgW "docs" "" "").getD []

/-- Files for the C1 witness: two files declaring positions 2 and 1. -/
def filesW1 : List FileNode :=
  [{ title := "Second", id := none, description := none, position := some 2,
     createAssets := false, initialContent := none },
   { title := "First", id := none, description := none, position := some 1,
     createAssets := false, initialContent := none }]

/-- Files for the C3 witness: two files with no declared positions. -/
def filesW3 : List FileNode :=
  [{ title := "A", id := none, description := none, position := none,
     createAssets := false, initialContent := none },
   { title := "B", id := none, description := none, position := none,
     createAssets := false, initialContent := none }]

/-- Subsection for the C3 witness: no declared position. -/
def subsW3 : List SectionNode :=
  [SectionNode.mk "Sub" "Sub" none false none none [] []]

/-- The section of the spec's mixed-declaration scenario (C4): two
files, one declaring `position: 1`, the other declaring none. -/
def sMixed : SectionNode :=
  SectionNode.mk "Intro" "Intro" none false none none
    [{ title := "A", id := none, description := none, position := some 1,
       createAssets := false, initialContent := none },
     { title := "B", id := none, description := none, position := none,
       createAssets := false, initialContent := none }] []

/-- The spec's mixed-declaration scenario configuration (C4). -/
def cfgMixed : Config :=
  { section_name := "docs"
    sections := [sMixed]
    customImportsFile := none }

/-- The last content written by an `overwrite=True` write at path `p` in
a trace (scanning from the end). -/
def lastOw : List WriteOp → List String → Option String
  | [], _ => none
  | op :: rest, p =>
    match lastOw rest p with
    | some c => some c
    | none => if op.path = p && op.overwrite then some op.content else none

/-- The content of the first write (of either kind) at path `p` in a
trace. -/
def firstAt : List WriteOp → List String → Option String
  | [], _ => none
  | op :: rest, p => if op.path = p then some op.content else firstAt rest p

/-! ## Helper lemmas -/

theorem charsStartWith_single (a c : Char) (rest : List Char) :
    charsStartWith (a :: rest) [c] = decide (a = c) := by
  simp [charsStartWith]

theorem replaceAllAux_single (c : Char) (rep : List Char) :
    ∀ (fuel : Nat) (s : List Char), s.length ≤ fuel →
      replaceAllAux fuel s [c] rep =
        s.foldr (fun a acc => (if a = c then rep else [a]) ++ acc) [] := by
  intro fuel
  induction fuel with
  | zero =>
    intro s hs
    have : s = [] := List.eq_nil_of_length_eq_zero (Nat.le_zero.mp hs)
    subst this
    rfl
  | succ n ih =>
    intro s hs
    cases s with
    | nil => rfl
    | cons a rest =>
      have hlen : rest.length ≤ n := by
        simpa using Nat.le_of_succ_le_succ hs
      have hunf : replaceAllAux (Nat.succ n) (a :: rest) [c] rep =
          if !([c] : List Char).isEmpty && charsStartWith (a :: rest) [c] then
            rep ++ replaceAllAux n ((a :: rest).drop ([c] : List Char).length) [c] rep
          else a :: replaceAllAux n rest [c] rep := rfl
      rw [hunf]
      by_cases h : a = c
      · subst h
        have hcond : (!([a] : List Char).isEmpty && charsStartWith (a :: rest) [a]) = true := by
          simp [charsStartWith]
        simp only [hcond, if_true, List.length_singleton, List.drop_succ_cons,
          List.drop_zero, List.foldr_cons, if_pos rfl]
        rw [ih rest hlen]
      · have hcond : (!([c] : List Char).isEmpty && charsStartWith (a :: rest) [c]) = false := by
          simp [charsStartWith, h]
        simp only [hcond, Bool.false_eq_true, if_false, List.foldr_cons, if_neg h]
        rw [ih rest hlen]
        simp

theorem replaceAll_single (c : Char) (rep s : List Char) :
    replaceAll s [c] rep =
      s.foldr (fun a acc => (if a = c then rep else [a]) ++ acc) [] :=
  replaceAllAux_single c rep s.length s le_rfl

theorem foldr_sub_acc (h : Char → List Char) (l acc : List Char) :
    l.foldr (fun a r => h a ++ r) acc = l.foldr (fun a r => h a ++ r) [] ++ acc := by
  induction l with
  | nil => simp
  | cons a l ih => simp [ih, List.append_assoc]

theorem slug_compose (l : List Char) :
    (l.foldr (fun a acc => (if a = ' ' then ['-'] else [a]) ++ acc) []).foldr
        (fun a acc => (if a = '&' then ['a', 'n', 'd'] else [a]) ++ acc) []
      = l.foldr (fun a acc => slugSub a ++ acc) [] := by
  induction l with
  | nil => rfl
  | cons a l ih =>
    simp only [List.foldr_cons, List.foldr_append]
    rw [foldr_sub_acc (fun x => if x = '&' then ['a', 'n', 'd'] else [x])
        (if a = ' ' then ['-'] else [a])]
    rw [ih]
    congr 1
    by_cases h : a = ' '
    · subst h
      simp [slugSub]
    · by_cases h2 : a = '&'
      · subst h2
        simp [slugSub]
      · simp [slugSub, h, h2]

/-! ## Claim C7: slug determinism -/

/-- Claim C7: `sanitize_filename` lower-cases the title and then replaces
every space with a hyphen and every literal ampersand with `and`;
in particular the slug of `"Data & Models"` is `"data-and-models"`, and a
file with that title at rank 3 is named `"03-data-and-models.mdx"`. -/
theorem c7_slug :
    (∀ t : String, sanitizeFilename t =
       String.mk ((t.data.map Char.toLower).foldr
         (fun a acc => slugSub a ++ acc) []))
    ∧ sanitizeFilename "Data & Models" = "data-and-models"
    ∧ generateNumberedName 3 "Data & Models" ".mdx" = "03-data-and-models.mdx" := by
  refine ⟨?_, by decide, by decide⟩
  intro t
  show pyReplace (pyReplace (pyLower t) " " "-") "&" "and" = _
  simp only [pyReplace, pyLower]
  rw [replaceAll_single ' ' ['-'], replaceAll_single '&' ['a', 'n', 'd']]
  exact congrArg String.mk (slug_compose (t.data.map Char.toLower))

/-! ## Claim C6: front matter shape -/

/-- Claim C6: for every file node and assigned counter, the generated
front matter is the fenced block with, in this fixed order, `id` (explicit
`id` if given, else the slugged title), `title`, `description` (explicit
if given, else the title) and `sidebar_position` (explicit `position` if
given, else the assigned counter). -/
theorem c6_front_matter (item : FileNode) (counter : Int) :
    frontMatterGenerate item counter =
      String.intercalate "\n"
        ["---",
         "id: " ++ (match item.id with
                    | some v => v
                    | none => sanitizeFilename item.title),
         "title: " ++ item.title,
         "description: " ++ (match item.description with
                             | some d => d
                             | none => item.title),
         "sidebar_position: " ++ toString (match item.position with
                                           | some p => p
                                           | none => counter),
         "---"] := by
  rcases item with ⟨t, oid, odesc, opos, ca, oic⟩
  cases oid <;> cases odesc <;> cases opos <;> rfl

/-! ## Claim C5: category descriptors -/

/-- Claim C5: a generated category descriptor carries the node's label
and a position equal to the node's explicit `position` if set, else the
assigned counter; section descriptors are always non-collapsible with the
fixed `sidebar-header` class, and subsection descriptors default to
`collapsible: true, collapsed: true`, each field independently
overridable.  The builder writes the descriptor rendered at the node's
assigned 1-based counter as the first write of that container. -/
theorem c5_category :
    (∀ (s : SectionNode) (i : Int),
       (generateSectionCategory s i).label = s.label ∧
       (generateSectionCategory s i).position = s.position.getD i ∧
       (generateSectionCategory s i).className = "sidebar-header" ∧
       (generateSectionCategory s i).collapsible = false ∧
       (generateSubsectionCategory s i).label = s.label ∧
       (generateSubsectionCategory s i).position = s.position.getD i ∧
       (generateSubsectionCategory s i).collapsible = s.collapsible.getD true ∧
       (generateSubsectionCategory s i).collapsed = s.collapsed.getD true)
    ∧ (∀ (fuel : Nat) (s : SectionNode) (idx : Nat) (path : List String)
         (it ci : String) (ops : List WriteOp),
         buildSubsectionOps (Nat.succ fuel) s idx path it ci = some ops →
         ops.head? = some (subsectionCategoryOp s idx
           (path ++ [generateNumberedName idx s.title ""])))
    ∧ (∀ (fuel : Nat) (s : SectionNode) (idx : Nat) (path : List String)
         (it ci : String) (ops : List WriteOp),
         buildSectionOps fuel s idx path it ci = some ops →
         ops.head? = some (sectionCategoryOp s idx
           (path ++ [generateNumberedName idx s.title ""]))) := by
  refine ⟨fun s i => ⟨rfl, rfl, rfl, rfl, rfl, rfl, rfl, rfl⟩, ?_, ?_⟩
  · intro fuel s idx path it ci ops h
    simp only [buildSubsectionOps] at h
    cases hc : buildContentOps fuel s.files s.subsections
        (path ++ [generateNumberedName idx s.title ""]) it ci with
    | none =>
      rw [hc] at h
      exact absurd h (by simp)
    | some c =>
      rw [hc] at h
      have : subsectionCategoryOp s idx
          (path ++ [generateNumberedName idx s.title ""]) :: c ++
          (if s.createAssets then placeholderOps
            ((path ++ [generateNumberedName idx s.title ""]) ++ ["assets"])
           else []) = ops := by
        exact Option.some.inj h
      rw [← this]
      rfl
  · intro fuel s idx path it ci ops h
    simp only [buildSectionOps] at h
    cases hc : buildContentOps fuel s.files s.subsections
        (path ++ [generateNumberedName idx s.title ""]) it ci with
    | none =>
      rw [hc] at h
      exact absurd h (by simp)
    | some c =>
      rw [hc] at h
      have : sectionCategoryOp s idx
          (path ++ [generateNumberedName idx s.title ""]) :: c ++
          (if s.createAssets then placeholderOps
            ((path ++ [generateNumberedName idx s.title ""]) ++ ["assets"])
           else []) = ops := by
        exact Option.some.inj h
      rw [← this]
      rfl

/-- Witness for C5: on a concrete subsection with explicit
`position: 2` and `collapsible: false` the builder's first write at
counter 1 is its category descriptor. -/
theorem c5_category_witness :
    buildSubsectionOps 3 sW5 1 ["docs"] "" "" = some opsW5 ∧
    opsW5.head? = some (subsectionCategoryOp sW5 1
      (["docs"] ++ [generateNumberedName 1 sW5.title ""])) :=
  ⟨by decide, c5_category.2.1 2 sW5 1 ["docs"] "" "" opsW5 (by decide)⟩

/-! ## Claim C9: the unvalidated top-level sections sort -/

/-- Claim C9: `validate` does not apply the position-consistency
invariant to the top-level `sections` list itself.  On `cfg9`, whose two
sections are internally valid but mix a declared and an undeclared
top-level `position`, validation succeeds (no errors accumulated), yet
the `_get_sorted_items` sort shared by the preview and the builder raises
a key-lookup error (modelled as `none`), so the run aborts with exit code
1 even on an affirmative answer. -/
theorem c9_unvalidated_top_level_sort :
    validateConfig cfg9 = [] ∧
    getSortedItems cfg9.sections = none ∧
    (runMain (some cfg9) "config.yaml" none (some "y") none "docs" ""
      fsEmpty).1 = 1 := by
  refine ⟨by decide, Option.isNone_iff_eq_none.mp (by decide), ?_⟩
  decide

/-! ## Claim C8: cancellation and validation exits -/

/-- Claim C8: when the operator declines the confirmation prompt the run
returns normally (exit code 0) with the filesystem untouched, and when
validation fails the run exits with status 1. -/
theorem c8_cancel_and_validation_exit (cfg : Config) (cp : String)
    (importsFile answer envAuto : Option String) (bp ci : String) (fs : FS) :
    (validateConfig cfg = [] → (getSortedItems cfg.sections).isSome →
       previewConfirm answer envAuto = false →
       runMain (some cfg) cp importsFile answer envAuto bp ci fs = (0, fs))
    ∧ (validateConfig cfg ≠ [] →
       (runMain (some cfg) cp importsFile answer envAuto bp ci fs).1 = 1) := by
  constructor
  · intro hv hs hpc
    obtain ⟨ss, hss⟩ := Option.isSome_iff_exists.mp hs
    simp [runMain, configLoaderLoad, hv, hss, hpc]
  · intro hv
    simp [runMain, configLoaderLoad, hv]

/-- Witness for C8: a concrete valid configuration, answer `"n"`: the run
exits 0 and leaves the (empty) filesystem unchanged; the same
configuration with `section_name` emptied fails validation and exits 1. -/
theorem c8_cancel_and_validation_exit_witness :
    runMain (some cfgW) "config.yaml" none (some "n") none "docs" "" fsEmpty
      = (0, fsEmpty) ∧
    (runMain (some { cfgW with section_name := "" }) "config.yaml" none
      (some "y") none "docs" "" fsEmpty).1 = 1 :=
  ⟨(c8_cancel_and_validation_exit cfgW "config.yaml" none (some "n") none
      "docs" "" fsEmpty).1 (by decide) (by decide) (by decide),
   (c8_cancel_and_validation_exit { cfgW with section_name := "" }
      "config.yaml" none (some "y") none "docs" "" fsEmpty).2 (by decide)⟩

/-! ## Claim C10: imports and configuration loading -/

theorem buildOps_isSome_indep : ∀ fuel : Nat,
    (∀ (s : SectionNode) (idx : Nat) (path : List String) (it it' ci : String),
       (buildSubsectionOps fuel s idx path it ci).isSome =
       (buildSubsectionOps fuel s idx path it' ci).isSome)
    ∧ (∀ (files : List FileNode) (subs : List SectionNode)
         (path : List String) (it it' ci : String),
       (buildContentOps fuel files subs path it ci).isSome =
       (buildContentOps fuel files subs path it' ci).isSome)
    ∧ (∀ (items : List Item) (i : Nat) (path : List String) (it it' ci : String),
       (buildItemsOps fuel items i path it ci).isSome =
       (buildItemsOps fuel items i path it' ci).isSome) := by
  intro fuel
  induction fuel with
  | zero => exact ⟨fun _ _ _ _ _ _ => rfl, fun _ _ _ _ _ _ => rfl,
      fun _ _ _ _ _ _ => rfl⟩
  | succ n ih =>
    obtain ⟨ihS, ihC, ihI⟩ := ih
    refine ⟨?_, ?_, ?_⟩
    · intro s idx path it it' ci
      simp only [buildSubsectionOps]
      have h := ihC s.files s.subsections
        (path ++ [generateNumberedName idx s.title ""]) it it' ci
      cases h1 : buildContentOps n s.files s.subsections
          (path ++ [generateNumberedName idx s.title ""]) it ci with
      | none =>
        cases h2 : buildContentOps n s.files s.subsections
            (path ++ [generateNumberedName idx s.title ""]) it' ci with
        | none => rfl
        | some c => rw [h1, h2] at h; simp at h
      | some c =>
        cases h2 : buildContentOps n s.files s.subsections
            (path ++ [generateNumberedName idx s.title ""]) it' ci with
        | none => rw [h1, h2] at h; simp at h
        | some c' => rfl
    · intro files subs path it it' ci
      simp only [buildContentOps]
      cases horder : orderedItems (mergeItems files subs) with
      | none => rfl
      | some sorted => exact ihI sorted 1 path it it' ci
    · intro items i path it it' ci
      cases items with
      | nil => rfl
      | cons x rest =>
        cases x with
        | inl f =>
          simp only [buildItemsOps]
          have h := ihI rest (i + 1) path it it' ci
          cases h1 : buildItemsOps n rest (i + 1) path it ci with
          | none =>
            cases h2 : buildItemsOps n rest (i + 1) path it' ci with
            | none => rfl
            | some r => rw [h1, h2] at h; simp at h
          | some r =>
            cases h2 : buildItemsOps n rest (i + 1) path it' ci with
            | none => rw [h1, h2] at h; simp at h
            | some r' => rfl
        | inr s =>
          simp only [buildItemsOps]
          have hs := ihS s i path it it' ci
          have hr := ihI rest (i + 1) path it it' ci
          cases h1 : buildSubsectionOps n s i path it ci with
          | none =>
            cases h2 : buildSubsectionOps n s i path it' ci with
            | none => rfl
            | some c => rw [h1, h2] at hs; simp at hs
          | some c =>
            cases h2 : buildSubsectionOps n s i path it' ci with
            | none => rw [h1, h2] at hs; simp at hs
            | some c' =>
              cases h3 : buildItemsOps n rest (i + 1) path it ci with
              | none =>
                cases h4 : buildItemsOps n rest (i + 1) path it' ci with
                | none => rfl
                | some r => rw [h3, h4] at hr; simp at hr
              | some r =>
                cases h4 : buildItemsOps n rest (i + 1) path it' ci with
                | none => rw [h3, h4] at hr; simp at hr
                | some r' => rfl

theorem buildSectionsOps_isSome_indep :
    ∀ (ss : List SectionNode) (fuel i : Nat) (path : List String)
      (it it' ci : String),
    (buildSectionsOps fuel ss i path it ci).isSome =
    (buildSectionsOps fuel ss i path it' ci).isSome := by
  intro ss
  induction ss with
  | nil => intro fuel i path it it' ci; rfl
  | cons s rest ih =>
    intro fuel i path it it' ci
    simp only [buildSectionsOps]
    have hsec : (buildSectionOps fuel s i path it ci).isSome =
        (buildSectionOps fuel s i path it' ci).isSome := by
      simp only [buildSectionOps]
      have h := (buildOps_isSome_indep fuel).2.1 s.files s.subsections
        (path ++ [generateNumberedName i s.title ""]) it it' ci
      cases h1 : buildContentOps fuel s.files s.subsections
          (path ++ [generateNumberedName i s.title ""]) it ci with
      | none =>
        cases h2 : buildContentOps fuel s.files s.subsections
            (path ++ [generateNumberedName i s.title ""]) it' ci with
        | none => rfl
        | some c => rw [h1, h2] at h; simp at h
      | some c =>
        cases h2 : buildContentOps fuel s.files s.subsections
            (path ++ [generateNumberedName i s.title ""]) it' ci with
        | none => rw [h1, h2] at h; simp at h
        | some c' => rfl
    have hrest := ih fuel (i + 1) path it it' ci
    cases h1 : buildSectionOps fuel s i path it ci with
    | none =>
      cases h2 : buildSectionOps fuel s i path it' ci with
      | none => rfl
      | some c => rw [h1, h2] at hsec; simp at hsec
    | some c =>
      cases h2 : buildSectionOps fuel s i path it' ci with
      | none => rw [h1, h2] at hsec; simp at hsec
      | some c' =>
        cases h3 : buildSectionsOps fuel rest (i + 1) path it ci with
        | none =>
          cases h4 : buildSectionsOps fuel rest (i + 1) path it' ci with
          | none => rfl
          | some r => rw [h3, h4] at hrest; simp at hrest
        | some r =>
          cases h4 : buildSectionsOps fuel rest (i + 1) path it' ci with
          | none => rw [h3, h4] at hrest; simp at hrest
          | some r' => rfl

theorem buildStructureOps_isSome_indep (cfg : Config) (bp it it' ci : String) :
    (buildStructureOps cfg bp it ci).isSome =
    (buildStructureOps cfg bp it' ci).isSome := by
  simp only [buildStructureOps]
  cases h : getSortedItems cfg.sections with
  | none => rfl
  | some ss =>
    exact buildSectionsOps_isSome_indep ss (listFuel ss) 1 [bp, cfg.section_name]
      it it' ci

/-- Claim C10: `load_imports_template` returns the trimmed contents of an
existing file and degrades to a warning plus empty string when the file
is absent, leaving the run's exit behaviour unchanged, whereas a missing
YAML configuration file makes `load` fail with a file-not-found error
carrying the offending path. -/
theorem c10_loading :
    (∀ contents : String,
       loadImportsTemplate (some contents) = (pyStrip contents, false))
    ∧ loadImportsTemplate none = ("", true)
    ∧ (∀ path : String, configLoaderLoad none path =
        Except.error ("Configuration file not found: " ++ path))
    ∧ (∀ (cfg : Config) (path : String),
        configLoaderLoad (some cfg) path = Except.ok cfg)
    ∧ (∀ (cfg : Config) (cp : String) (answer envAuto : Option String)
         (bp ci : String) (fs : FS) (contents : String),
        (runMain (some cfg) cp (some contents) answer envAuto bp ci fs).1 =
        (runMain (some cfg) cp none answer envAuto bp ci fs).1) := by
  refine ⟨fun _ => rfl, rfl, fun _ => rfl, fun _ _ => rfl, ?_⟩
  intro cfg cp answer envAuto bp ci fs contents
  simp only [runMain, configLoaderLoad]
  by_cases hv : validateConfig cfg = []
  · simp only [hv, ne_eq, not_true_eq_false, if_false]
    cases hs : getSortedItems cfg.sections with
    | none => rfl
    | some ss =>
      by_cases hc : previewConfirm answer envAuto
      · simp only [hc, Bool.not_true, Bool.false_eq_true, if_false]
        have h := buildStructureOps_isSome_indep cfg bp
          (loadImportsTemplate (some contents)).1
          (loadImportsTemplate none).1 ci
        simp only [buildStructure]
        cases h1 : buildStructureOps cfg bp
            (loadImportsTemplate (some contents)).1 ci with
        | none =>
          cases h2 : buildStructureOps cfg bp (loadImportsTemplate none).1 ci with
          | none => rfl
          | some o => rw [h1, h2] at h; simp at h
        | some o =>
          cases h2 : buildStructureOps cfg bp (loadImportsTemplate none).1 ci with
          | none => rw [h1, h2] at h; simp at h
          | some o' => rfl
      · simp [hc]
  · simp [hv]

/-! ## Claim C3: default ordering -/

/-- Claim C3: in a container in which no child declares a position, the
builder's order places all files before all subsections, each group in
document order, and the build then numbers that merged sequence with the
single 1-based counter. -/
theorem c3_default_order (files : List FileNode) (subs : List SectionNode)
    (hf : ∀ f ∈ files, f.position = none)
    (hs : ∀ s ∈ subs, s.position = none) :
    orderedItems (mergeItems files subs) =
      some (files.map Sum.inl ++ subs.map Sum.inr) ∧
    ∀ (fuel : Nat) (path : List String) (it ci : String),
      buildContentOps (Nat.succ fuel) files subs path it ci =
      buildItemsOps fuel (files.map Sum.inl ++ subs.map Sum.inr) 1 path it ci := by
  have hall : ∀ x ∈ mergeItems files subs, itemPosition x = none := by
    intro x hx
    rcases List.mem_append.mp hx with hxf | hxs
    · obtain ⟨f, hfmem, rfl⟩ := List.mem_map.mp hxf
      exact hf f hfmem
    · obtain ⟨s, hsmem, rfl⟩ := List.mem_map.mp hxs
      exact hs s hsmem
  have hany : (mergeItems files subs).any
      (fun x => truthyPos (itemPosition x)) = false := by
    rw [List.any_eq_false]
    intro x hx
    rw [hall x hx]
    exact Bool.false_ne_true
  have hord : orderedItems (mergeItems files subs) =
      some (files.map Sum.inl ++ subs.map Sum.inr) := by
    simp only [orderedItems, hany, Bool.false_eq_true, if_false]
    rfl
  refine ⟨hord, ?_⟩
  intro fuel path it ci
  simp only [buildContentOps]
  rw [hord]

/-- Witness for C3: two positionless files and one positionless
subsection keep the files-then-subsections document order. -/
theorem c3_default_order_witness :
    orderedItems (mergeItems filesW3 subsW3) =
      some (filesW3.map Sum.inl ++ subsW3.map Sum.inr) :=
  (c3_default_order filesW3 subsW3 (by decide) (by decide)).1

/-! ## Claim C4: mixed position declarations -/

mutual

/-- For any container reachable inside a section subtree, the diagnostics
of its `_validate_positions` run appear among the diagnostics of the
subtree's `_validate_section` run, with a context string that interpolates
the container's title. -/
theorem validateLiftSection :
    ∀ (s s' : SectionNode), s' ∈ containersOf s → ∀ (idx : Nat) (ctx : String),
      ∃ ctxS : String, (∃ pre : String, ctxS = pre ++ " '" ++ s'.title ++ "'") ∧
        ∀ e ∈ validatePositions s'.files s'.subsections ctxS,
          e ∈ validateSection s idx ctx
  | .mk t l p ca cb cc files subs, s', hmem, idx, ctx => by
    rw [containersOf] at hmem
    rcases List.mem_cons.mp hmem with heq | hrec
    · subst heq
      refine ⟨(ctx ++ " " ++ toString idx) ++ " '" ++ t ++ "'",
        ⟨ctx ++ " " ++ toString idx, rfl⟩, ?_⟩
      intro e he
      simp only [validateSection]
      have he' : e ∈ validatePositions files subs
          ((ctx ++ " " ++ toString idx) ++ " '" ++ t ++ "'") := he
      exact List.mem_append.mpr (Or.inl (List.mem_append.mpr (Or.inr he')))
    · obtain ⟨ctxS, hpre, hsub⟩ := validateLiftList subs s' hrec 1
        ((ctx ++ " " ++ toString idx) ++ " -> Subsection")
      refine ⟨ctxS, hpre, ?_⟩
      intro e he
      simp only [validateSection]
      exact List.mem_append.mpr (Or.inr (hsub e he))

/-- List version of `validateLiftSection`, over `_validate_section`'s
subsection recursion. -/
theorem validateLiftList :
    ∀ (ss : List SectionNode) (s' : SectionNode), s' ∈ containersOfList ss →
      ∀ (i : Nat) (ctx : String),
      ∃ ctxS : String, (∃ pre : String, ctxS = pre ++ " '" ++ s'.title ++ "'") ∧
        ∀ e ∈ validatePositions s'.files s'.subsections ctxS,
          e ∈ validateSubs ss i ctx
  | s :: rest, s', hmem, i, ctx => by
    rw [containersOfList] at hmem
    rcases List.mem_append.mp hmem with hleft | hright
    · obtain ⟨ctxS, hpre, hsub⟩ := validateLiftSection s s' hleft i ctx
      refine ⟨ctxS, hpre, ?_⟩
      intro e he
      simp only [validateSubs]
      exact List.mem_append.mpr (Or.inl (hsub e he))
    · obtain ⟨ctxS, hpre, hsub⟩ := validateLiftList rest s' hright (i + 1) ctx
      refine ⟨ctxS, hpre, ?_⟩
      intro e he
      simp only [validateSubs]
      exact List.mem_append.mpr (Or.inr (hsub e he))

end

/-- Claim C4: a container in which some but not all children declare
positions makes `_validate_positions` report exactly the
mixed-declaration diagnostic naming the container; consequently the whole
validation of any configuration holding such a container fails with a
mixed-declaration diagnostic naming it, and the spec's two-file scenario
does exactly that. -/
theorem c4_mixed_positions :
    (∀ (files : List FileNode) (subs : List SectionNode) (ctx : String),
       (∃ it ∈ pitems files subs, (it.position).isSome) →
       (∃ it ∈ pitems files subs, it.position = none) →
       validatePositions files subs ctx = [VErr.mixedPositions ctx])
    ∧ (∀ (cfg : Config) (s' : SectionNode), s' ∈ configContainers cfg →
       (∃ it ∈ pitems s'.files s'.subsections, (it.position).isSome) →
       (∃ it ∈ pitems s'.files s'.subsections, it.position = none) →
       validateConfig cfg ≠ [] ∧
       ∃ pre : String, VErr.mixedPositions (pre ++ " '" ++ s'.title ++ "'") ∈
         validateConfig cfg)
    ∧ validateConfig cfgMixed = [VErr.mixedPositions "Section 1 'Intro'"] := by
  have base : ∀ (files : List FileNode) (subs : List SectionNode) (ctx : String),
      (∃ it ∈ pitems files subs, (it.position).isSome) →
      (∃ it ∈ pitems files subs, it.position = none) →
      validatePositions files subs ctx = [VErr.mixedPositions ctx] := by
    intro files subs ctx hsome hnone
    obtain ⟨a, ha, hasome⟩ := hsome
    obtain ⟨b, hb, hbnone⟩ := hnone
    have hne : (pitems files subs).filter (fun it => it.position.isSome) ≠ [] := by
      apply List.ne_nil_of_mem
      exact List.mem_filter.mpr ⟨ha, hasome⟩
    have hlt : ((pitems files subs).filter
        (fun it => it.position.isSome)).length < (pitems files subs).length := by
      rw [List.length_filter_lt_length_iff_exists]
      exact ⟨b, hb, by simp [hbnone]⟩
    simp only [validatePositions]
    rw [if_neg (by simpa [List.isEmpty_iff] using hne), if_pos hlt]
  refine ⟨base, ?_, by decide⟩
  intro cfg s' hmem hsome hnone
  obtain ⟨ctxS, ⟨pre, hpre⟩, hlift⟩ :=
    validateLiftList cfg.sections s' hmem 1 "Section"
  have hment : VErr.mixedPositions ctxS ∈ validateConfig cfg := by
    have hin : VErr.mixedPositions ctxS ∈
        validatePositions s'.files s'.subsections ctxS := by
      rw [base s'.files s'.subsections ctxS hsome hnone]
      exact List.mem_singleton.mpr rfl
    have := hlift _ hin
    simp only [validateConfig]
    exact List.mem_append.mpr (Or.inr this)
  subst hpre
  exact ⟨List.ne_nil_of_mem hment, ⟨pre, hment⟩⟩

/-- Witness for C4: on the spec's scenario configuration the full
validation fails with a mixed-declaration diagnostic naming the
section. -/
theorem c4_mixed_positions_witness :
    validateConfig cfgMixed ≠ [] ∧
    ∃ pre : String, VErr.mixedPositions (pre ++ " '" ++ sMixed.title ++ "'") ∈
      validateConfig cfgMixed :=
  c4_mixed_positions.2.1 cfgMixed sMixed
    (by simp [configContainers, cfgMixed, containersOfList, containersOf, sMixed])
    (by decide) (by decide)

/-! ## Claim C1: the position-set invariant -/

theorem allDeclared_iff (files : List FileNode) (subs : List SectionNode) :
    allDeclared files subs ↔ ∀ it ∈ pitems files subs, (it.position).isSome := by
  unfold allDeclared pitems
  constructor
  · rintro ⟨h1, h2⟩ it hit
    rcases List.mem_append.mp hit with h | h
    · obtain ⟨f, hf, rfl⟩ := List.mem_map.mp h
      exact h1 f hf
    · obtain ⟨s, hs, rfl⟩ := List.mem_map.mp h
      exact h2 s hs
  · intro h
    constructor
    · intro f hf
      exact h _ (List.mem_append.mpr (Or.inl (List.mem_map_of_mem _ hf)))
    · intro s hs
      exact h _ (List.mem_append.mpr (Or.inr (List.mem_map_of_mem _ hs)))

theorem filterMap_pos_length (l : List PItem)
    (h : ∀ it ∈ l, (it.position).isSome) :
    (l.filterMap (fun it => it.position)).length = l.length := by
  induction l with
  | nil => rfl
  | cons a l ih =>
    obtain ⟨p, hp⟩ := Option.isSome_iff_exists.mp (h a (List.mem_cons_self a l))
    rw [List.filterMap_cons, hp]
    simp only [List.length_cons]
    rw [ih (fun it hit => h it (List.mem_cons_of_mem a hit))]

theorem collected_eq_declared (l : List PItem)
    (hpos : ∀ q ∈ l.filterMap (fun it => it.position), 1 ≤ q) :
    collectedPositions l = l.filterMap (fun it => it.position) := by
  unfold collectedPositions
  apply List.filterMap_congr
  intro it hit
  cases hp : it.position with
  | none => rfl
  | some p =>
    have h1p : 1 ≤ p := hpos p (List.mem_filterMap.mpr ⟨it, hit, hp⟩)
    simp [Int.not_lt.mpr h1p]

theorem posErrs_eq_nil_iff (ctx : String) (l : List PItem) :
    posErrsOf ctx l = [] ↔
      ∀ it ∈ l, ∀ p₀ : Int, it.position = some p₀ → 1 ≤ p₀ := by
  unfold posErrsOf
  rw [List.filterMap_eq_nil_iff]
  constructor
  · intro h it hit p₀ hp
    have h0 := h it hit
    rw [hp] at h0
    have h1 : (if p₀ < 1 then some (VErr.positionNotPositive ctx it.typ it.title)
        else none) = (none : Option VErr) := h0
    by_cases hlt : p₀ < 1
    · rw [if_pos hlt] at h1
      exact absurd h1 (by simp)
    · exact Int.not_lt.mp hlt
  · intro h it hit
    cases hp : it.position with
    | none => rfl
    | some p₀ =>
      have := h it hit p₀ hp
      simp [Int.not_lt.mpr this]

theorem dupErrs_eq_nil_iff (ctx : String) (positions : List Int) :
    dupErrsOf ctx positions = [] ↔ positions.Nodup := by
  unfold dupErrsOf
  constructor
  · intro h
    by_cases hlen : positions.dedup.length ≠ positions.length
    · rw [if_pos hlen] at h
      exact absurd h (by simp)
    · have heq : positions.dedup = positions :=
        (List.dedup_sublist positions).eq_of_length (Decidable.not_not.mp hlen)
      rw [← heq]
      exact List.nodup_dedup positions
  · intro h
    have heq : positions.dedup = positions := List.dedup_eq_self.mpr h
    simp [heq]

theorem mem_expectedPositions (n : Nat) (q : Int) :
    q ∈ expectedPositions n ↔ 1 ≤ q ∧ q ≤ (n : Int) := by
  unfold expectedPositions
  simp only [List.mem_map, List.mem_range]
  constructor
  · rintro ⟨k, hk, rfl⟩
    omega
  · rintro ⟨h1, h2⟩
    refine ⟨(q - 1).toNat, by omega, by omega⟩

theorem nodup_expectedPositions (n : Nat) : (expectedPositions n).Nodup := by
  unfold expectedPositions
  exact (List.nodup_range n).map (fun a b hab => by omega)

theorem length_expectedPositions (n : Nat) :
    (expectedPositions n).length = n := by
  unfold expectedPositions
  rw [List.length_map, List.length_range]

theorem pitems_length (files : List FileNode) (subs : List SectionNode) :
    (pitems files subs).length = files.length + subs.length := by
  simp [pitems]

theorem setEq_cond_iff (n : Nat) (positions : List Int) :
    ((expectedPositions n).all (fun p => positions.contains p) &&
     positions.all (fun p => (expectedPositions n).contains p)) = true ↔
    ∀ a : Int, a ∈ positions ↔ a ∈ expectedPositions n := by
  rw [Bool.and_eq_true, List.all_eq_true, List.all_eq_true]
  constructor
  · rintro ⟨h1, h2⟩ a
    constructor
    · intro ha
      simpa using h2 a ha
    · intro ha
      simpa using h1 a ha
  · intro h
    constructor
    · intro a ha
      simpa using (h a).mpr ha
    · intro a ha
      simpa using (h a).mp ha

theorem vp_nil_iff (files : List FileNode) (subs : List SectionNode)
    (ctx : String) (hAll : allDeclared files subs) :
    validatePositions files subs ctx = [] ↔
      (declaredPositions files subs).Perm
        (expectedPositions (files.length + subs.length)) := by
  have hAll' : ∀ it ∈ pitems files subs, (it.position).isSome :=
    (allDeclared_iff files subs).mp hAll
  have hfilter : (pitems files subs).filter (fun it => (it.position).isSome) =
      pitems files subs :=
    List.filter_eq_self.mpr (fun a ha => hAll' a ha)
  have hLlen : (pitems files subs).length = files.length + subs.length :=
    pitems_length files subs
  have hdecl : declaredPositions files subs =
      (pitems files subs).filterMap (fun it => it.position) := rfl
  by_cases hLnil : pitems files subs = []
  · have hnil2 : files.map (fun f => PItem.mk "file" f.position f.title) = [] ∧
        subs.map (fun s => PItem.mk "subsection" s.position s.title) = [] :=
      List.append_eq_nil.mp hLnil
    have hf : files = [] := List.map_eq_nil_iff.mp hnil2.1
    have hsb : subs = [] := List.map_eq_nil_iff.mp hnil2.2
    subst hf
    subst hsb
    constructor
    · intro _
      exact List.Perm.refl _
    · intro _
      rfl
  · have hvp : validatePositions files subs ctx =
        posErrsOf ctx (pitems files subs) ++
        dupErrsOf ctx (collectedPositions (pitems files subs)) ++
        rangeErrsOf ctx (pitems files subs).length
          (collectedPositions (pitems files subs)) := by
      simp only [validatePositions]
      rw [hfilter]
      rw [if_neg (by simpa [List.isEmpty_iff] using hLnil), if_neg (lt_irrefl _)]
    rw [hvp, hdecl]
    have hlenmaps : ((pitems files subs).filterMap (fun it => it.position)).length =
        (pitems files subs).length := filterMap_pos_length _ hAll'
    constructor
    · intro h
      obtain ⟨h12, hrange⟩ := List.append_eq_nil.mp h
      obtain ⟨hpos, hdup⟩ := List.append_eq_nil.mp h12
      have hpos' : ∀ q ∈ (pitems files subs).filterMap (fun it => it.position),
          1 ≤ q := by
        intro q hq
        obtain ⟨it, hit, hq'⟩ := List.mem_filterMap.mp hq
        exact (posErrs_eq_nil_iff ctx _).mp hpos it hit q hq'
      have hcoll := collected_eq_declared _ hpos'
      rw [hcoll] at hdup hrange
      have hnodup : ((pitems files subs).filterMap (fun it => it.position)).Nodup :=
        (dupErrs_eq_nil_iff ctx _).mp hdup
      have hdne : (pitems files subs).filterMap (fun it => it.position) ≠ [] := by
        intro hx
        rw [hx] at hlenmaps
        exact hLnil (List.length_eq_zero.mp hlenmaps.symm)
      unfold rangeErrsOf at hrange
      rw [if_neg (by simpa [List.isEmpty_iff] using hdne)] at hrange
      have hset : ((expectedPositions (pitems files subs).length).all
            (fun p => ((pitems files subs).filterMap
              (fun it => it.position)).contains p) &&
          ((pitems files subs).filterMap (fun it => it.position)).all
            (fun p => (expectedPositions
              (pitems files subs).length).contains p)) = true := by
        by_contra hset
        rw [if_neg hset] at hrange
        exact absurd hrange (by simp)
      have hmemiff := (setEq_cond_iff (pitems files subs).length _).mp hset
      rw [hLlen] at hmemiff
      exact (List.perm_ext_iff_of_nodup hnodup
        (nodup_expectedPositions _)).mpr hmemiff
    · intro hperm
      have hpos' : ∀ q ∈ (pitems files subs).filterMap (fun it => it.position),
          1 ≤ q := by
        intro q hq
        have hqe : q ∈ expectedPositions (files.length + subs.length) :=
          hperm.mem_iff.mp hq
        exact ((mem_expectedPositions _ q).mp hqe).1
      have hposnil : posErrsOf ctx (pitems files subs) = [] := by
        rw [posErrs_eq_nil_iff]
        intro it hit p₀ hp
        exact hpos' p₀ (List.mem_filterMap.mpr ⟨it, hit, hp⟩)
      have hcoll := collected_eq_declared _ hpos'
      have hnodup : ((pitems files subs).filterMap (fun it => it.position)).Nodup :=
        hperm.nodup_iff.mpr (nodup_expectedPositions _)
      have hdupnil : dupErrsOf ctx (collectedPositions (pitems files subs)) = [] := by
        rw [hcoll]
        exact (dupErrs_eq_nil_iff ctx _).mpr hnodup
      have hrangenil : rangeErrsOf ctx (pitems files subs).length
          (collectedPositions (pitems files subs)) = [] := by
        rw [hcoll]
        unfold rangeErrsOf
        by_cases hemp : ((pitems files subs).filterMap
            (fun it => it.position)).isEmpty
        · rw [if_pos hemp]
        · rw [if_neg hemp]
          have hset : ((expectedPositions (pitems files subs).length).all
                (fun p => ((pitems files subs).filterMap
                  (fun it => it.position)).contains p) &&
              ((pitems files subs).filterMap (fun it => it.position)).all
                (fun p => (expectedPositions
                  (pitems files subs).length).contains p)) = true := by
            rw [setEq_cond_iff]
            intro a
            rw [hLlen]
            exact hperm.mem_iff
          rw [if_pos hset]
      rw [hposnil, hdupnil, hrangenil]
      rfl

theorem vp_range_diag (files : List FileNode) (subs : List SectionNode)
    (ctx : String) (hAll : allDeclared files subs)
    (hpos : ∀ p ∈ declaredPositions files subs, 1 ≤ p)
    (hnp : ¬ (declaredPositions files subs).Perm
        (expectedPositions (files.length + subs.length))) :
    ∃ miss ext : List Int,
      VErr.positionRange ctx (files.length + subs.length) miss ext ∈
        validatePositions files subs ctx ∧
      (∀ p ∈ expectedPositions (files.length + subs.length),
        p ∉ declaredPositions files subs → p ∈ miss) ∧
      (∀ p ∈ declaredPositions files subs,
        p ∉ expectedPositions (files.length + subs.length) → p ∈ ext) := by
  have hAll' : ∀ it ∈ pitems files subs, (it.position).isSome :=
    (allDeclared_iff files subs).mp hAll
  have hfilter : (pitems files subs).filter (fun it => (it.position).isSome) =
      pitems files subs :=
    List.filter_eq_self.mpr (fun a ha => hAll' a ha)
  have hLlen : (pitems files subs).length = files.length + subs.length :=
    pitems_length files subs
  have hdecl : declaredPositions files subs =
      (pitems files subs).filterMap (fun it => it.position) := rfl
  by_cases hLnil : pitems files subs = []
  · exfalso
    apply hnp
    have hnil2 : files.map (fun f => PItem.mk "file" f.position f.title) = [] ∧
        subs.map (fun s => PItem.mk "subsection" s.position s.title) = [] :=
      List.append_eq_nil.mp hLnil
    have hf : files = [] := List.map_eq_nil_iff.mp hnil2.1
    have hsb : subs = [] := List.map_eq_nil_iff.mp hnil2.2
    subst hf
    subst hsb
    exact List.Perm.refl _
  · have hvp : validatePositions files subs ctx =
        posErrsOf ctx (pitems files subs) ++
        dupErrsOf ctx (collectedPositions (pitems files subs)) ++
        rangeErrsOf ctx (pitems files subs).length
          (collectedPositions (pitems files subs)) := by
      simp only [validatePositions]
      rw [hfilter]
      rw [if_neg (by simpa [List.isEmpty_iff] using hLnil), if_neg (lt_irrefl _)]
    have hlenmaps : ((pitems files subs).filterMap
        (fun it => it.position)).length = (pitems files subs).length :=
      filterMap_pos_length _ hAll'
    have hpos' : ∀ q ∈ (pitems files subs).filterMap (fun it => it.position),
        1 ≤ q := by
      rw [← hdecl]
      exact hpos
    have hcoll := collected_eq_declared _ hpos'
    have hdne : (pitems files subs).filterMap (fun it => it.position) ≠ [] := by
      intro hx
      rw [hx] at hlenmaps
      exact hLnil (List.length_eq_zero.mp hlenmaps.symm)
    have hset : ¬ (((expectedPositions (pitems files subs).length).all
          (fun p => ((pitems files subs).filterMap
            (fun it => it.position)).contains p) &&
        ((pitems files subs).filterMap (fun it => it.position)).all
          (fun p => (expectedPositions
            (pitems files subs).length).contains p)) = true) := by
      intro hs
      have hmemiff := (setEq_cond_iff (pitems files subs).length _).mp hs
      apply hnp
      have hsubp : List.Subperm (expectedPositions (pitems files subs).length)
          ((pitems files subs).filterMap (fun it => it.position)) :=
        (nodup_expectedPositions _).subperm
          (fun a ha => (hmemiff a).mpr ha)
      have hperm2 : (expectedPositions (pitems files subs).length).Perm
          ((pitems files subs).filterMap (fun it => it.position)) :=
        hsubp.perm_of_length_le
          (by rw [hlenmaps, length_expectedPositions])
      rw [hdecl, ← hLlen]
      exact hperm2.symm
    have hrange : rangeErrsOf ctx (pitems files subs).length
        (collectedPositions (pitems files subs)) =
        [VErr.positionRange ctx (pitems files subs).length
          ((expectedPositions (pitems files subs).length).filter
            (fun p => !(((pitems files subs).filterMap
              (fun it => it.position)).contains p)))
          (List.insertionSort (fun a b => a ≤ b)
            ((((pitems files subs).filterMap (fun it => it.position)).filter
              (fun p => !((expectedPositions
                (pitems files subs).length).contains p))).dedup))] := by
      rw [hcoll]
      unfold rangeErrsOf
      rw [if_neg (by simpa [List.isEmpty_iff] using hdne), if_neg hset]
    refine ⟨(expectedPositions (pitems files subs).length).filter
        (fun p => !(((pitems files subs).filterMap
          (fun it => it.position)).contains p)),
      List.insertionSort (fun a b => a ≤ b)
        ((((pitems files subs).filterMap (fun it => it.position)).filter
          (fun p => !((expectedPositions
            (pitems files subs).length).contains p))).dedup), ?_, ?_, ?_⟩
    · rw [hvp]
      refine List.mem_append.mpr (Or.inr ?_)
      rw [hrange, hLlen]
      exact List.mem_singleton.mpr rfl
    · intro p hp hdp
      rw [hLlen]
      refine List.mem_filter.mpr ⟨?_, ?_⟩
      · exact hp
      · rw [hdecl] at hdp
        simpa using hdp
    · intro p hp hep
      have h1 : p ∈ ((pitems files subs).filterMap (fun it => it.position)).filter
          (fun q => !((expectedPositions
            (pitems files subs).length).contains q)) := by
        refine List.mem_filter.mpr ⟨?_, ?_⟩
        · rw [hdecl] at hp
          exact hp
        · rw [hLlen]
          simpa using hep
      have h2 := List.mem_dedup.mpr h1
      exact (List.perm_insertionSort (fun a b => a ≤ b) _).mem_iff.mpr h2

/-- Claim C1: for every container in which every child declares a
position, the position check accumulates no diagnostics exactly when the
declared positions are a permutation of `{1, ..., N}` for N the child
count; on a mismatch of (positive) declared positions the diagnostics
contain a range error carrying the container's context, every missing
value and every out-of-range declared value, and inside a full
configuration such a container makes `validate` fail with that diagnostic
naming the container by title. -/
theorem c1_position_set :
    (∀ (files : List FileNode) (subs : List SectionNode) (ctx : String),
       allDeclared files subs →
       (validatePositions files subs ctx = [] ↔
         (declaredPositions files subs).Perm
           (expectedPositions (files.length + subs.length))))
    ∧ (∀ (files : List FileNode) (subs : List SectionNode) (ctx : String),
       allDeclared files subs →
       (∀ p ∈ declaredPositions files subs, 1 ≤ p) →
       ¬ (declaredPositions files subs).Perm
           (expectedPositions (files.length + subs.length)) →
       ∃ miss ext : List Int,
         VErr.positionRange ctx (files.length + subs.length) miss ext ∈
           validatePositions files subs ctx ∧
         (∀ p ∈ expectedPositions (files.length + subs.length),
           p ∉ declaredPositions files subs → p ∈ miss) ∧
         (∀ p ∈ declaredPositions files subs,
           p ∉ expectedPositions (files.length + subs.length) → p ∈ ext))
    ∧ (∀ (cfg : Config) (s' : SectionNode), s' ∈ configContainers cfg →
       allDeclared s'.files s'.subsections →
       (∀ p ∈ declaredPositions s'.files s'.subsections, 1 ≤ p) →
       ¬ (declaredPositions s'.files s'.subsections).Perm
           (expectedPositions (s'.files.length + s'.subsections.length)) →
       validateConfig cfg ≠ [] ∧
       ∃ (pre : String) (miss ext : List Int),
         VErr.positionRange (pre ++ " '" ++ s'.title ++ "'")
           (s'.files.length + s'.subsections.length) miss ext ∈
           validateConfig cfg) := by
  refine ⟨vp_nil_iff, vp_range_diag, ?_⟩
  intro cfg s' hmem hAll hpos hnp
  obtain ⟨ctxS, ⟨pre, hpre⟩, hlift⟩ :=
    validateLiftList cfg.sections s' hmem 1 "Section"
  obtain ⟨miss, ext, hin, _, _⟩ :=
    vp_range_diag s'.files s'.subsections ctxS hAll hpos hnp
  have hincfg : VErr.positionRange ctxS
      (s'.files.length + s'.subsections.length) miss ext ∈ validateConfig cfg := by
    have := hlift _ hin
    simp only [validateConfig]
    exact List.mem_append.mpr (Or.inr this)
  subst hpre
  exact ⟨List.ne_nil_of_mem hincfg, ⟨pre, miss, ext, hincfg⟩⟩

/-- Witness for C1: two files declaring positions 2 and 1 validate
cleanly (their declared multiset is a permutation of `{1, 2}`). -/
theorem c1_position_set_witness :
    validatePositions filesW1 [] "Section 1 'Intro'" = [] :=
  (c1_position_set.1 filesW1 [] "Section 1 'Intro'" (by decide)).mpr (by decide)

/-! ## Claim C2: idempotence of the builder -/

theorem applyOp_apply (fs : FS) (op : WriteOp) (q : List String) :
    applyOp fs op q =
      if (fs op.path).isSome && !op.overwrite then fs q
      else if q = op.path then some op.content else fs q := by
  unfold applyOp writeFile
  by_cases h : ((fs op.path).isSome && !op.overwrite) = true
  · rw [if_pos h, if_pos h]
  · rw [if_neg h, if_neg h]

theorem applyTrace_char : ∀ (ops : List WriteOp) (fs : FS) (q : List String),
    applyTrace fs ops q =
      match lastOw ops q with
      | some c => some c
      | none =>
        match fs q with
        | some v => some v
        | none => firstAt ops q := by
  intro ops
  induction ops with
  | nil =>
    intro fs q
    cases h : fs q <;> simp [applyTrace, lastOw, firstAt, h]
  | cons op rest ih =>
    intro fs q
    show applyTrace (applyOp fs op) rest q = _
    rw [ih]
    cases hlast : lastOw rest q with
    | some c =>
      simp [lastOw, hlast]
    | none =>
      have hl : lastOw (op :: rest) q =
          (if op.path = q && op.overwrite then some op.content else none) := by
        simp [lastOw, hlast]
      rw [hl]
      by_cases hpq : op.path = q
      · by_cases how : op.overwrite = true
        · have happ : applyOp fs op q = some op.content := by
            rw [applyOp_apply]
            rw [if_neg (by simp [how]), if_pos hpq.symm]
          rw [happ]
          simp [hpq, how]
        · have hnot : (op.path = q && op.overwrite) = false := by
            simp [Bool.eq_false_iff.mpr how]
          rw [hnot]
          simp only [Bool.false_eq_true, if_false]
          cases hfs : fs q with
          | some v =>
            have happ : applyOp fs op q = some v := by
              rw [applyOp_apply]
              rw [if_pos (by rw [hpq, hfs]; simp [Bool.eq_false_iff.mpr how]),
                hfs]
            rw [happ]
          | none =>
            have happ : applyOp fs op q = some op.content := by
              rw [applyOp_apply]
              rw [if_neg (by rw [hpq, hfs]; simp), if_pos hpq.symm]
            rw [happ]
            simp [firstAt, hpq]
      · have hnot : (op.path = q && op.overwrite) = false := by
          simp [hpq]
        rw [hnot]
        simp only [Bool.false_eq_true, if_false]
        have happ : applyOp fs op q = fs q := by
          rw [applyOp_apply]
          by_cases hc : ((fs op.path).isSome && !op.overwrite) = true
          · rw [if_pos hc]
          · rw [if_neg hc, if_neg (fun hq => hpq hq.symm)]
        rw [happ]
        have hfa : firstAt (op :: rest) q = firstAt rest q := by
          simp [firstAt, hpq]
        rw [hfa]

theorem applyTrace_idem (ops : List WriteOp) (fs : FS) :
    applyTrace (applyTrace fs ops) ops = applyTrace fs ops := by
  funext q
  rw [applyTrace_char, applyTrace_char]
  cases hlast : lastOw ops q with
  | some c => rfl
  | none =>
    cases hfs : fs q with
    | some v => rfl
    | none =>
      cases hfa : firstAt ops q with
      | some c => rfl
      | none => rfl

theorem firstAt_ne_none (ops : List WriteOp) (op : WriteOp) (h : op ∈ ops) :
    firstAt ops op.path ≠ none := by
  induction ops with
  | nil => exact absurd h (List.not_mem_nil op)
  | cons o rest ih =>
    by_cases hp : o.path = op.path
    · simp [firstAt, hp]
    · have hop : op ∈ rest := by
        rcases List.mem_cons.mp h with rfl | hr
        · exact absurd rfl hp
        · exact hr
      simp only [firstAt, if_neg hp]
      exact ih hop

theorem applyTrace_mem_isSome (ops : List WriteOp) (fs : FS) (op : WriteOp)
    (h : op ∈ ops) : (applyTrace fs ops op.path).isSome := by
  rw [applyTrace_char]
  cases hlast : lastOw ops op.path with
  | some c => rfl
  | none =>
    cases hfs : fs op.path with
    | some v => rfl
    | none =>
      cases hfa : firstAt ops op.path with
      | some c => rfl
      | none => exact absurd hfa (firstAt_ne_none ops op h)

theorem writeFile_preserves (fs : FS) (p : List String) (c : String)
    (ow : Bool) (q : List String) (h : (fs q).isSome) :
    ((writeFile fs p c ow).1 q).isSome := by
  unfold writeFile
  by_cases hc : ((fs p).isSome && !ow) = true
  · rw [if_pos hc]
    exact h
  · rw [if_neg hc]
    by_cases hq : q = p
    · simp [hq]
    · simp only [if_neg hq]
      exact h

theorem writeFile_flag (fs : FS) (p : List String) (c : String) (ow : Bool)
    (h : (fs p).isSome) : (writeFile fs p c ow).2 = ow := by
  unfold writeFile
  cases ow with
  | true => rw [if_neg (by simp)]
  | false => rw [if_pos (by simp [h])]

theorem applyTraceWr_flags : ∀ (ops : List WriteOp) (fs : FS),
    (∀ op ∈ ops, (fs op.path).isSome) →
    (applyTraceWr fs ops).2 = ops.map (fun op => op.overwrite) := by
  intro ops
  induction ops with
  | nil => intro fs _; rfl
  | cons op rest ih =>
    intro fs h
    show ((writeFile fs op.path op.content op.overwrite).2 ::
      (applyTraceWr (writeFile fs op.path op.content op.overwrite).1 rest).2) = _
    rw [writeFile_flag fs op.path op.content op.overwrite
      (h op (List.mem_cons_self op rest))]
    rw [ih (writeFile fs op.path op.content op.overwrite).1
      (fun o ho => writeFile_preserves fs op.path op.content op.overwrite
        o.path (h o (List.mem_cons_of_mem op ho)))]
    rfl

theorem placeholderOps_kind (dir : List String) :
    ∀ op ∈ placeholderOps dir,
      (op.overwrite = true ↔ op.kind = WriteKind.category) := by
  intro op hop
  rcases List.mem_singleton.mp hop with rfl
  constructor
  · intro h
    exact absurd h (by simp)
  · intro h
    exact absurd h (by simp)

theorem buildFileOps_kind (it : String) (f : FileNode) (idx : Nat)
    (path : List String) (ci : String) :
    ∀ op ∈ buildFileOps it f idx path ci,
      (op.overwrite = true ↔ op.kind = WriteKind.category) := by
  intro op hop
  unfold buildFileOps at hop
  by_cases hca : f.createAssets
  · rw [if_pos hca] at hop
    rcases List.mem_cons.mp hop with rfl | hrest
    · constructor
      · intro h
        exact absurd h (by simp)
      · intro h
        exact absurd h (by simp)
    · exact placeholderOps_kind _ op hrest
  · rw [if_neg hca] at hop
    rcases List.mem_singleton.mp hop with rfl
    constructor
    · intro h
      exact absurd h (by simp)
    · intro h
      exact absurd h (by simp)

theorem buildOps_kind : ∀ fuel : Nat,
    (∀ (s : SectionNode) (idx : Nat) (path : List String) (it ci : String)
       (ops : List WriteOp), buildSubsectionOps fuel s idx path it ci = some ops →
       ∀ op ∈ ops, (op.overwrite = true ↔ op.kind = WriteKind.category))
    ∧ (∀ (files : List FileNode) (subs : List SectionNode) (path : List String)
         (it ci : String) (ops : List WriteOp),
       buildContentOps fuel files subs path it ci = some ops →
       ∀ op ∈ ops, (op.overwrite = true ↔ op.kind = WriteKind.category))
    ∧ (∀ (items : List Item) (i : Nat) (path : List String) (it ci : String)
         (ops : List WriteOp), buildItemsOps fuel items i path it ci = some ops →
       ∀ op ∈ ops, (op.overwrite = true ↔ op.kind = WriteKind.category)) := by
  intro fuel
  induction fuel with
  | zero =>
    refine ⟨?_, ?_, ?_⟩ <;> intro a b c d e f h <;> exact absurd h (by simp [buildSubsectionOps, buildContentOps, buildItemsOps])
  | succ n ih =>
    obtain ⟨ihS, ihC, ihI⟩ := ih
    refine ⟨?_, ?_, ?_⟩
    · intro s idx path it ci ops h op hop
      simp only [buildSubsectionOps] at h
      cases hc : buildContentOps n s.files s.subsections
          (path ++ [generateNumberedName idx s.title ""]) it ci with
      | none =>
        rw [hc] at h
        exact absurd h (by simp)
      | some c =>
        rw [hc] at h
        rw [← Option.some.inj h] at hop
        rcases List.mem_cons.mp hop with rfl | hrest
        · exact ⟨fun _ => rfl, fun _ => rfl⟩
        · rcases List.mem_append.mp hrest with hcont | hassets
          · exact ihC s.files s.subsections _ it ci c hc op hcont
          · by_cases hca : s.createAssets
            · rw [if_pos hca] at hassets
              exact placeholderOps_kind _ op hassets
            · rw [if_neg hca] at hassets
              exact absurd hassets (List.not_mem_nil op)
    · intro files subs path it ci ops h op hop
      simp only [buildContentOps] at h
      cases hord : orderedItems (mergeItems files subs) with
      | none =>
        rw [hord] at h
        exact absurd h (by simp)
      | some sorted =>
        rw [hord] at h
        exact ihI sorted 1 path it ci ops h op hop
    · intro items i path it ci ops h op hop
      cases items with
      | nil =>
        rw [show buildItemsOps (Nat.succ n) [] i path it ci = some [] from rfl]
          at h
        rw [← Option.some.inj h] at hop
        exact absurd hop (List.not_mem_nil op)
      | cons x rest =>
        cases x with
        | inl f =>
          simp only [buildItemsOps] at h
          cases hr : buildItemsOps n rest (i + 1) path it ci with
          | none =>
            rw [hr] at h
            exact absurd h (by simp)
          | some restOps =>
            rw [hr] at h
            rw [← Option.some.inj h] at hop
            rcases List.mem_append.mp hop with hfile | hrest
            · exact buildFileOps_kind it f i path ci op hfile
            · exact ihI rest (i + 1) path it ci restOps hr op hrest
        | inr s =>
          simp only [buildItemsOps] at h
          cases hs : buildSubsectionOps n s i path it ci with
          | none =>
            rw [hs] at h
            exact absurd h (by simp)
          | some subOps =>
            rw [hs] at h
            cases hr : buildItemsOps n rest (i + 1) path it ci with
            | none =>
              rw [hr] at h
              exact absurd h (by simp)
            | some restOps =>
              rw [hr] at h
              rw [← Option.some.inj h] at hop
              rcases List.mem_append.mp hop with hsub | hrest
              · exact ihS s i path it ci subOps hs op hsub
              · exact ihI rest (i + 1) path it ci restOps hr op hrest

theorem buildSectionOps_kind (fuel : Nat) (s : SectionNode) (idx : Nat)
    (path : List String) (it ci : String) (ops : List WriteOp)
    (h : buildSectionOps fuel s idx path it ci = some ops) :
    ∀ op ∈ ops, (op.overwrite = true ↔ op.kind = WriteKind.category) := by
  intro op hop
  simp only [buildSectionOps] at h
  cases hc : buildContentOps fuel s.files s.subsections
      (path ++ [generateNumberedName idx s.title ""]) it ci with
  | none =>
    rw [hc] at h
    exact absurd h (by simp)
  | some c =>
    rw [hc] at h
    rw [← Option.some.inj h] at hop
    rcases List.mem_cons.mp hop with rfl | hrest
    · exact ⟨fun _ => rfl, fun _ => rfl⟩
    · rcases List.mem_append.mp hrest with hcont | hassets
      · exact (buildOps_kind fuel).2.1 s.files s.subsections _ it ci c hc op hcont
      · by_cases hca : s.createAssets
        · rw [if_pos hca] at hassets
          exact placeholderOps_kind _ op hassets
        · rw [if_neg hca] at hassets
          exact absurd hassets (List.not_mem_nil op)

theorem buildSectionsOps_kind : ∀ (ss : List SectionNode) (fuel i : Nat)
    (path : List String) (it ci : String) (ops : List WriteOp),
    buildSectionsOps fuel ss i path it ci = some ops →
    ∀ op ∈ ops, (op.overwrite = true ↔ op.kind = WriteKind.category) := by
  intro ss
  induction ss with
  | nil =>
    intro fuel i path it ci ops h op hop
    rw [← Option.some.inj h] at hop
    exact absurd hop (List.not_mem_nil op)
  | cons s rest ih =>
    intro fuel i path it ci ops h op hop
    simp only [buildSectionsOps] at h
    cases hs : buildSectionOps fuel s i path it ci with
    | none =>
      rw [hs] at h
      exact absurd h (by simp)
    | some sOps =>
      rw [hs] at h
      cases hr : buildSectionsOps fuel rest (i + 1) path it ci with
      | none =>
        rw [hr] at h
        exact absurd h (by simp)
      | some restOps =>
        rw [hr] at h
        rw [← Option.some.inj h] at hop
        rcases List.mem_append.mp hop with h1 | h2
        · exact buildSectionOps_kind fuel s i path it ci sOps hs op h1
        · exact ih fuel (i + 1) path it ci restOps hr op h2

theorem buildStructureOps_kind (cfg : Config) (bp it ci : String)
    (ops : List WriteOp) (h : buildStructureOps cfg bp it ci = some ops) :
    ∀ op ∈ ops, (op.overwrite = true ↔ op.kind = WriteKind.category) := by
  simp only [buildStructureOps] at h
  cases hs : getSortedItems cfg.sections with
  | none =>
    rw [hs] at h
    exact absurd h (by simp)
  | some sections =>
    rw [hs] at h
    exact buildSectionsOps_kind sections (listFuel sections) 1
      [bp, cfg.section_name] it ci ops h

/-- Claim C2: a `build_structure` run is the application of a write trace
determined by the configuration alone; applying the same trace a second
time leaves the filesystem byte-identical (in particular every `.mdx`
document), the second run's `write_file` calls write exactly the
`overwrite=True` ones — every category descriptor is rewritten (with the
same bytes, the trace being unchanged) while every `.mdx` and placeholder
write is skipped — and in the trace the overwriting writes are exactly
the `_category_.json` writes. -/
theorem c2_idempotent (cfg : Config) (bp it ci : String) (fs : FS)
    (ops : List WriteOp) (h : buildStructureOps cfg bp it ci = some ops) :
    buildStructure cfg bp it ci fs = some (applyTrace fs ops) ∧
    applyTrace (applyTrace fs ops) ops = applyTrace fs ops ∧
    (applyTraceWr (applyTrace fs ops) ops).2 =
      ops.map (fun op => op.overwrite) ∧
    ∀ op ∈ ops, (op.overwrite = true ↔ op.kind = WriteKind.category) := by
  refine ⟨?_, applyTrace_idem ops fs, ?_, buildStructureOps_kind cfg bp it ci ops h⟩
  · rw [buildStructure, h]
    rfl
  · exact applyTraceWr_flags ops (applyTrace fs ops)
      (fun op hop => applyTrace_mem_isSome ops fs op hop)

/-- Witness for C2: on the concrete one-section, one-file configuration
the build trace exists and reapplying it to the filesystem it produced
changes nothing. -/
theorem c2_idempotent_witness :
    buildStructureOps cfgW "docs" "" "" = some opsW ∧
    applyTrace (applyTrace fsEmpty opsW) opsW = applyTrace fsEmpty opsW :=
  ⟨by decide, (c2_idempotent cfgW "docs" "" "" fsEmpty opsW (by decide)).2.1⟩
